import Mathlib

/-!
Verification development for the region luma sampling engine
(services/surfaceflinger/RegionSamplingThread.cpp).

The C++ source is shallowly embedded:
* pixel buffers are total functions from (integer) word offsets to 32-bit
  pixel values (`ℤ → ℕ`), matching the raw `const uint32_t*` pointer;
* `float` arithmetic is modelled by exact rational arithmetic (`ℚ`), with
  `std::round` modelled by `round` (round half up, which agrees with
  round-half-away-from-zero on the nonnegative arguments that occur here);
* `int32_t` counters are modelled by `ℤ` (no counter here can reach 2^31
  for buffers of realistic size, so wrap-around is not modelled);
* the single out-of-bounds array access that the histogram fallback loop
  can perform (`brightnessBuckets[256]` on a 256-entry `std::array`) is
  modelled by an explicit parameter `oob` holding the value such a read
  would observe, together with a boolean result flag that records whether
  the out-of-bounds read happened.
-/

set_option maxRecDepth 8000

namespace RegionSampling

/-- Modelled from the spec: an integer screen rectangle (the repository's
`ui::Rect`, which is outside the provided source file): `left`, `top`,
`right`, `bottom` with width `right - left` and height `bottom - top`. -/
structure Rect where
  left : ℤ
  top : ℤ
  right : ℤ
  bottom : ℤ
deriving DecidableEq

/-- Width of a rectangle, as in `Rect::getWidth()`. -/
def Rect.width (r : Rect) : ℤ := r.right - r.left

/-- Height of a rectangle, as in `Rect::getHeight()`. -/
def Rect.height (r : Rect) : ℤ := r.bottom - r.top

/-- Modelled from the spec: `ui::Rect::intersect` (outside the provided
source) computes the rectangle of componentwise max/min and reports whether
it is nonempty; two rectangles intersect iff the max of the left (top)
edges is strictly below the min of the right (bottom) edges. -/
def Rect.intersects (a b : Rect) : Prop :=
  max a.left b.left < min a.right b.right ∧ max a.top b.top < min a.bottom b.bottom

instance (a b : Rect) : Decidable (Rect.intersects a b) := by
  unfold Rect.intersects; infer_instance

/-- Modelled from the spec: an integer screen point (`ui::Point`). -/
structure Point where
  x : ℤ
  y : ℤ
deriving DecidableEq

/-- Modelled from the spec: `Rect operator-(const Point&)` translates a
rectangle by subtracting the point from all four coordinates (used as
`descriptor.area - leftTop` to move a descriptor area into buffer-local
coordinates). -/
def Rect.sub (r : Rect) (p : Point) : Rect :=
  ⟨r.left - p.x, r.top - p.y, r.right - p.x, r.bottom - p.y⟩

/-- Rec. 709 luma weighting, from `getLuma` in the source:
`0.2126f * r + 0.7152f * g + 0.0722f * b`, with float arithmetic modelled
exactly over `ℚ`. -/
def getLuma (r g b : ℚ) : ℚ := 0.2126 * r + 0.7152 * g + 0.0722 * b

/-- Undiscretized luma of one 32-bit pixel, from the body of the pixel loop
in `sampleArea`:
`r = (pixel & 0xFF) / 255.0f`, `g = ((pixel >> 8) & 0xFF) / 255.0f`,
`b = ((pixel >> 16) & 0xFF) / 255.0f`, then `getLuma(r, g, b)`.
Masking and shifting are written as `% 256` and division by powers of two. -/
def pixelLuma (pixel : ℕ) : ℚ :=
  getLuma ((pixel % 256 : ℕ) / 255) ((pixel / 256 % 256 : ℕ) / 255)
    ((pixel / 65536 % 256 : ℕ) / 255)

/-- Discretized luma level of one 32-bit pixel:
`const uint8_t luma = std::round(getLuma(r, g, b) * 255.0f)`.
On the nonnegative arguments occurring here, `std::round` (round half away
from zero) agrees with `round` (round half up). -/
def lumaLevel (pixel : ℕ) : ℕ :=
  (round (pixelLuma pixel * 255)).toNat

/-- Row-major list of the pixel values of `area`, read from `data` with the
given row stride: the two nested `for` loops of `sampleArea` visit
`rowBase[column] = data[row * stride + column]` for `row` in
`[top, bottom)` and `column` in `[left, right)`. -/
def pixelValues (data : ℤ → ℕ) (stride : ℤ) (area : Rect) : List ℕ :=
  (List.range area.height.toNat).flatMap fun row =>
    (List.range area.width.toNat).map fun column =>
      data ((area.top + row) * stride + (area.left + column))

/-- Row-major list of discretized luma levels of the pixels of `area`: the
body of the pixel loop of `sampleArea` computes `lumaLevel` of each visited
pixel value. -/
def pixelLumas (data : ℤ → ℕ) (stride : ℤ) (area : Rect) : List ℕ :=
  (pixelValues data stride area).map lumaLevel

/-- Majority threshold of `sampleArea`:
`majoritySampleNum = area.getWidth() * area.getHeight() / 2` with C++
truncating `int32_t` division (`Int.tdiv`). -/
def majoritySampleNum (area : Rect) : ℤ := Int.tdiv (area.width * area.height) 2

/-- Increment one histogram bucket (`++brightnessBuckets[luma]`). -/
def bump (buckets : ℕ → ℤ) (l : ℕ) : ℕ → ℤ :=
  fun i => if i = l then buckets i + 1 else buckets i

/-- The pixel scan of `sampleArea`: process the luma levels in row-major
order, incrementing the bucket of each level; as soon as a bucket count
exceeds `majority`, return that level (the early-exit
`if (brightnessBuckets[luma] > majoritySampleNum) return luma / 255.0f`).
The result is the early-exit level (if any) together with the final bucket
counts. -/
def scanGo (majority : ℤ) : List ℕ → (ℕ → ℤ) → Option ℕ × (ℕ → ℤ)
  | [], buckets => (none, buckets)
  | l :: rest, buckets =>
    let b := bump buckets l
    if b l > majority then (some l, b) else scanGo majority rest b

/-- The histogram fallback loop of `sampleArea`:

```
int32_t accumulated = 0;
size_t bucket = 0;
while (bucket++ < brightnessBuckets.size()) {
    accumulated += brightnessBuckets[bucket];
    if (accumulated > majoritySampleNum) break;
}
return bucket / 255.0f;
```

Note the post-increment: each iteration tests the old `bucket` against 256
and then reads index `bucket + 1`, so the loop reads indices 1 through 256
of the 256-entry array; the read at index 256 is out of bounds. The loop
is embedded with a structural argument `remaining` kept equal to
`256 - bucket` (so `bucket < 256` iff `remaining > 0`); the value an
out-of-bounds read would observe is the parameter `oob`, and the boolean
result records whether that read was performed. The first result component
is the final value of `bucket` (which the source divides by 255). -/
def fallbackAux (buckets : ℕ → ℤ) (oob : ℤ) (majority : ℤ) :
    ℤ → ℕ → ℕ → ℕ × Bool
  | _, bucket, 0 => (bucket + 1, false)
  | accumulated, bucket, remaining + 1 =>
    let idx := bucket + 1
    let v := if idx = 256 then oob else buckets idx
    let acc := accumulated + v
    if acc > majority then (idx, decide (idx = 256))
    else
      let t := fallbackAux buckets oob majority acc idx remaining
      (t.1, decide (idx = 256) || t.2)

/-- Integer-level result of `sampleArea`: the luma level (0 to 255 from the
early exit, or the final `bucket` value 1 to 257 from the fallback loop)
together with the flag recording whether `brightnessBuckets[256]` was read.
The source divides this level by 255.0f to produce the returned float. -/
def sampleAreaLevel (data : ℤ → ℕ) (stride : ℤ) (area : Rect) (oob : ℤ) :
    ℕ × Bool :=
  match scanGo (majoritySampleNum area) (pixelLumas data stride area) (fun _ => 0) with
  | (some l, _) => (l, false)
  | (none, buckets) => fallbackAux buckets oob (majoritySampleNum area) 0 0 256

/-- The function `sampleArea` of the source: returns the sampled luma (a
rational, modelling the returned `float`) together with the flag recording
whether the 256-entry bucket array was read out of bounds. -/
def sampleArea (data : ℤ → ℕ) (stride : ℤ) (area : Rect) (oob : ℤ) :
    ℚ × Bool :=
  let r := sampleAreaLevel data stride area oob
  (((r.1 : ℕ) : ℚ) / 255, r.2)

/-- One registration, the `Descriptor` struct of the source:
`{Rect area; wp<Layer> stopLayer; sp<IRegionSamplingListener> listener}`.
The weak layer reference is modelled by an optional stable layer identity
(`none` models a null or dead weak reference, for which
`stopLayer.promote().get()` is null and matches no visited layer), and the
listener capability by its stable channel identity. -/
structure Descriptor where
  area : Rect
  stopLayerId : Option ℕ
  listener : ℕ
deriving DecidableEq

/-- A candidate layer as seen by the filter callback: its stable identity
and its screen-space transformed bounding rectangle. The source computes
`transform.transform(Rect(layer->getBounds()), roundOutwards)`; the
transform math lives outside the provided source, so the transformed
rectangle is taken as the layer's datum here. -/
structure Layer where
  lid : ℕ
  tbounds : Rect
deriving DecidableEq

/-- State threaded through the filter callback of `captureSample`: the
`stopLayerFound` flag, the identities inserted into the `listeners` set,
and the identities of the layers passed through to the real visitor. -/
structure FilterState where
  stopLayerFound : Bool
  activeListeners : List ℕ
  passed : List ℕ
deriving DecidableEq

/-- Initial filter state: `bool stopLayerFound = false;` and an empty
`listeners` set, no layer passed through yet. -/
def initState : FilterState := ⟨false, [], []⟩

/-- One invocation of `filterVisitor` on one layer, from `captureSample`:

1. if `stopLayerFound` is already set, return (suppress the layer);
2. else if this layer is the stop layer of any descriptor, set the flag and
   return (suppress the layer);
3. else if the transformed bounds do not intersect `sampledArea`, return;
4. else insert into `listeners` the listener of every descriptor whose area
   the transformed bounds intersect; if there was none, return, otherwise
   pass the layer through to the real visitor. -/
def filterStep (sampledArea : Rect) (descriptors : List Descriptor)
    (st : FilterState) (layer : Layer) : FilterState :=
  if st.stopLayerFound then st
  else if descriptors.any fun d => decide (d.stopLayerId = some layer.lid) then
    { st with stopLayerFound := true }
  else if ¬ Rect.intersects layer.tbounds sampledArea then st
  else
    let hits := descriptors.filter fun d => decide (Rect.intersects layer.tbounds d.area)
    if hits = [] then st
    else
      { st with
        activeListeners := st.activeListeners ++ hits.map Descriptor.listener
        passed := st.passed ++ [layer.lid] }

/-- The whole filtering traversal: `filterVisitor` applied to each candidate
layer in traversal order, starting from the initial state. -/
def traverseFilter (sampledArea : Rect) (descriptors : List Descriptor)
    (layers : List Layer) : FilterState :=
  layers.foldl (filterStep sampledArea descriptors) initState

/-- The `activeDescriptors` list built after the capture: the snapshot
descriptors whose listener ended up in the `listeners` set
(`if (listeners.count(descriptor.listener) != 0)`), in snapshot order. -/
def activeDescriptors (descriptors : List Descriptor) (st : FilterState) :
    List Descriptor :=
  descriptors.filter fun d => decide (d.listener ∈ st.activeListeners)

/-- The function `sampleBuffer` of the source. `lockResult` models the
pixel pointer produced by `buffer->lock` (`none` models a lock failure,
after which the function returns an empty vector); on success the function
maps `sampleArea` over the descriptors, translating each descriptor area
by `- leftTop` into buffer-local coordinates. -/
def sampleBuffer (lockResult : Option (ℤ → ℕ)) (stride : ℤ) (leftTop : Point)
    (descriptors : List Descriptor) (oob : ℤ) : List ℚ :=
  match lockResult with
  | none => []
  | some data =>
    descriptors.map fun d => (sampleArea data stride (d.area.sub leftTop) oob).1

/-- The delivery step at the end of `captureSample`: if the number of lumas
differs from the number of active descriptors the pass delivers nothing
(`if (lumas.size() != activeDescriptors.size()) return;`); otherwise
listener `d` is invoked with `lumas[d]`. The result is the list of
(listener identity, luma) callback invocations, in order. -/
def captureDelivery (active : List Descriptor) (lumas : List ℚ) :
    List (ℕ × ℚ) :=
  if lumas.length = active.length then (active.map Descriptor.listener).zip lumas
  else []

/-- Insertion into the registry, `mDescriptors.emplace(key, descriptor)`:
`std::unordered_map::emplace` inserts only if no element with the key is
already present, and otherwise leaves the map unchanged. The map is
modelled as an association list looked up by first match. -/
def emplaceKV (m : List (ℕ × Descriptor)) (key : ℕ) (d : Descriptor) :
    List (ℕ × Descriptor) :=
  if (m.lookup key).isSome then m else (key, d) :: m

/-- Erasure from the registry, `mDescriptors.erase(key)`. -/
def eraseKV (m : List (ℕ × Descriptor)) (key : ℕ) : List (ℕ × Descriptor) :=
  m.filter fun p => p.1 != key

/-- The mutex-guarded shared state of the engine: the descriptor registry
`mDescriptors` (keyed by the listener channel identity), the
`mSampleRequested` flag and the `mRunning` flag. -/
structure SharedState where
  descriptors : List (ℕ × Descriptor)
  sampleRequested : Bool
  running : Bool
deriving DecidableEq

/-- Effect of `RegionSamplingThread::addListener` on the shared state:
`mDescriptors.emplace(asBinder, Descriptor{...})` under the mutex (the
`linkToDeath` subscription is a side effect on an external collaborator,
not on this state). -/
def addListener (s : SharedState) (key : ℕ) (d : Descriptor) : SharedState :=
  { s with descriptors := emplaceKV s.descriptors key d }

/-- Effect of `RegionSamplingThread::removeListener` on the shared state:
`mDescriptors.erase(asBinder)` under the mutex. -/
def removeListener (s : SharedState) (key : ℕ) : SharedState :=
  { s with descriptors := eraseKV s.descriptors key }

/-- Effect of `RegionSamplingThread::binderDied` on the shared state:
`mDescriptors.erase(who)` under the mutex. -/
def binderDied (s : SharedState) (key : ℕ) : SharedState :=
  { s with descriptors := eraseKV s.descriptors key }

/-- Effect of `RegionSamplingThread::sampleNow` on the shared state:
`mSampleRequested = true` under the mutex (plus a condition-variable
notification, which carries no state). -/
def sampleNow (s : SharedState) : SharedState :=
  { s with sampleRequested := true }

/-- One whole sampling pass, `RegionSamplingThread::captureSample`, as a
function from the shared state (and the pass inputs) to the shared state
after the pass together with the listener callbacks delivered. If the
registry is empty the pass is a no-op. Otherwise the registry is
snapshotted into a local vector, the filter traversal runs, the buffer is
sampled and delivery happens from locals only; the shared state is never
written. `sampledArea` (the bounding rectangle of the union of the
descriptor areas, computed via the external `ui::Region`) and the capture
outputs (`layers` order, lock result, stride) are pass inputs. -/
def captureSamplePass (s : SharedState) (sampledArea : Rect)
    (layers : List Layer) (lockResult : Option (ℤ → ℕ)) (stride : ℤ)
    (oob : ℤ) : SharedState × List (ℕ × ℚ) :=
  if s.descriptors = [] then (s, [])
  else
    let descriptors := s.descriptors.map Prod.snd
    let st := traverseFilter sampledArea descriptors layers
    let active := activeDescriptors descriptors st
    let lumas := sampleBuffer lockResult stride ⟨sampledArea.left, sampledArea.top⟩ active oob
    (s, captureDelivery active lumas)

/-- Abstract actions of the worker thread during `captureSample`, used to
state where the mutex is held and where the shared state is touched. -/
inductive Ev where
  | lockM
  | unlockM
  | captureCall
  | readShared
  | writeShared
  | callback
deriving DecidableEq

/-- Action trace of one `captureSample` call (entered with the mutex held,
from `threadMain`): read `mDescriptors` for the empty check; if empty,
return; else read `mDescriptors` again for the snapshot loop, then
`mMutex.unlock()`, the synchronous `captureScreenCore` call,
`mMutex.lock()`, and finally one `onSampleCollected` callback per active
descriptor (everything after the relock works on locals only). -/
def captureSampleTrace (emptyRegistry : Bool) (numActive : ℕ) : List Ev :=
  if emptyRegistry then [Ev.readShared]
  else
    [Ev.readShared, Ev.readShared, Ev.unlockM, Ev.captureCall, Ev.lockM] ++
      List.replicate numActive Ev.callback

/-- Checker: scanning a trace with the given initial mutex-held state,
every read or write of the mutex-guarded shared state happens while the
mutex is held. -/
def sharedFree (held : Bool) : List Ev → Bool
  | [] => true
  | Ev.lockM :: es => sharedFree true es
  | Ev.unlockM :: es => sharedFree false es
  | Ev.readShared :: es => held && sharedFree held es
  | Ev.writeShared :: es => held && sharedFree held es
  | Ev.captureCall :: es => sharedFree held es
  | Ev.callback :: es => sharedFree held es

/-- Mutex-held state after processing a list of events, starting from the
given held state. -/
def heldBefore (held : Bool) (es : List Ev) : Bool :=
  es.foldl
    (fun h e =>
      match e with
      | Ev.lockM => true
      | Ev.unlockM => false
      | _ => h)
    held

/-- Closed form of `lumaLevel` over natural-number arithmetic (used so that
concrete pixels can be evaluated by `decide`). -/
theorem lumaLevel_eq (pixel : ℕ) :
    lumaLevel pixel =
      (2126 * (pixel % 256) + 7152 * (pixel / 256 % 256) +
        722 * (pixel / 65536 % 256) + 5000) / 10000 := by
  simp only [lumaLevel, pixelLuma, getLuma]
  have h : (0.2126 * (((pixel % 256 : ℕ) : ℚ) / 255) +
        0.7152 * (((pixel / 256 % 256 : ℕ) : ℚ) / 255) +
        0.0722 * (((pixel / 65536 % 256 : ℕ) : ℚ) / 255)) * 255 + 1 / 2 =
      ((2126 * (pixel % 256) + 7152 * (pixel / 256 % 256) +
        722 * (pixel / 65536 % 256) + 5000 : ℕ) : ℚ) / ((10000 : ℕ) : ℚ) := by
    push_cast
    ring
  rw [round_eq, h, Int.floor_toNat, Nat.floor_div_nat, Nat.floor_natCast]

/-- If the scan exits early with level `l`, then the count of `l` among the
scanned levels, added to the initial bucket content of `l`, exceeds the
majority threshold. -/
theorem scanGo_eq_some (m : ℤ) :
    ∀ (ps : List ℕ) (b : ℕ → ℤ) (l : ℕ) (b2 : ℕ → ℤ),
      scanGo m ps b = (some l, b2) → m < b l + ps.count l := by
  intro ps
  induction ps with
  | nil =>
    intro b l b2 h
    simp [scanGo] at h
  | cons p rest ih =>
    intro b l b2 h
    simp only [scanGo] at h
    split at h
    · rename_i hgt
      have h1 : p = l := congrArg (fun r => (Prod.fst r).getD 0) h
      subst h1
      have h2 : bump b p p = b p + 1 := by simp [bump]
      have h3 : (p :: rest).count p = rest.count p + 1 := by
        simp [List.count_cons]
      rw [h3]
      rw [h2] at hgt
      push_cast
      omega
    · have h4 := ih (bump b p) l b2 h
      have h5 : bump b p l = b l + if l = p then 1 else 0 := by
        simp only [bump]
        split <;> simp
      have h6 : (p :: rest).count l = rest.count l + if l = p then 1 else 0 := by
        by_cases hlp : l = p
        · subst hlp
          simp [List.count_cons]
        · simp [List.count_cons, beq_iff_eq, Ne.symm hlp, hlp]
      rw [h6]
      rw [h5] at h4
      push_cast
      split at h4 <;> split <;> omega

/-- If the initial bucket content of `L` is at most the threshold but
together with the count of `L` among the scanned levels it exceeds the
threshold, the scan exits early with some level. -/
theorem scanGo_isSome (m : ℤ) (L : ℕ) :
    ∀ (ps : List ℕ) (b : ℕ → ℤ),
      m < b L + ps.count L → b L ≤ m →
      ∃ l b2, scanGo m ps b = (some l, b2) := by
  intro ps
  induction ps with
  | nil =>
    intro b hlt hle
    simp only [List.count_nil, Nat.cast_zero, add_zero] at hlt
    omega
  | cons p rest ih =>
    intro b hlt hle
    simp only [scanGo]
    split
    · exact ⟨p, bump b p, rfl⟩
    · rename_i hngt
      apply ih (bump b p)
      · have h5 : bump b p L = b L + if L = p then 1 else 0 := by
          simp only [bump]
          split <;> simp
        have h6 : (p :: rest).count L = rest.count L + if L = p then 1 else 0 := by
          by_cases hLp : L = p
          · subst hLp
            simp [List.count_cons]
          · simp [List.count_cons, beq_iff_eq, Ne.symm hLp, hLp]
        rw [h6] at hlt
        rw [h5]
        push_cast at hlt ⊢
        split at hlt <;> split <;> omega
      · by_cases hLp : L = p
        · subst hLp
          omega
        · have : bump b p L = b L := by simp [bump, hLp]
          omega

/-- Two distinct levels cannot each occur in more than half of the list. -/
theorem count_add_count_le (l L : ℕ) (hne : l ≠ L) :
    ∀ ps : List ℕ, ps.count l + ps.count L ≤ ps.length := by
  intro ps
  induction ps with
  | nil => simp
  | cons p rest ih =>
    simp only [List.count_cons, List.length_cons, beq_iff_eq]
    rcases eq_or_ne p l with h1 | h1 <;> rcases eq_or_ne p L with h2 | h2
    · exact absurd (h1.symm.trans h2) hne
    · rw [if_pos h1, if_neg h2]
      omega
    · rw [if_pos h2, if_neg h1]
      omega
    · rw [if_neg h1, if_neg h2]
      omega

/-- If level `L` holds a strict absolute majority of the scanned levels,
the scan started on empty buckets exits early, and with level `L`. -/
theorem scanGo_majority (m : ℤ) (ps : List ℕ) (L : ℕ)
    (hlen : (ps.length : ℤ) ≤ 2 * m + 1) (hc : m < (ps.count L : ℤ))
    (hm : 0 ≤ m) :
    ∃ b2, scanGo m ps (fun _ => 0) = (some L, b2) := by
  obtain ⟨l, b2, h⟩ :=
    scanGo_isSome m L ps (fun _ => 0) (by simpa using hc) (by simpa using hm)
  have hcl : m < (ps.count l : ℤ) := by
    have := scanGo_eq_some m ps (fun _ => 0) l b2 h
    simpa using this
  by_cases hne : l = L
  · subst hne
    exact ⟨b2, h⟩
  · exfalso
    have hsum := count_add_count_le l L hne ps
    have : ((ps.count l : ℤ)) + (ps.count L : ℤ) ≤ (ps.length : ℤ) := by
      omega
    omega

/-- The pixel loop visits exactly `height * width` pixels. -/
theorem pixelLumas_length (data : ℤ → ℕ) (stride : ℤ) (area : Rect) :
    (pixelLumas data stride area).length =
      area.height.toNat * area.width.toNat := by
  simp [pixelLumas, pixelValues, Function.comp_def]

/-- In a well-formed rectangle in which level `L` holds a strict absolute
majority of the discretized pixels, `sampleArea` exits early during the
scan and returns `L / 255`, independently of the out-of-bounds-read
parameter and without any out-of-bounds read. -/
theorem sampleArea_majority (data : ℤ → ℕ) (stride : ℤ) (area : Rect)
    (L : ℕ) (oob : ℤ) (hl : area.left ≤ area.right)
    (ht : area.top ≤ area.bottom)
    (hmaj : (pixelLumas data stride area).length <
      2 * (pixelLumas data stride area).count L) :
    (∃ b2, scanGo (majoritySampleNum area) (pixelLumas data stride area)
        (fun _ => 0) = (some L, b2)) ∧
      sampleAreaLevel data stride area oob = (L, false) ∧
      sampleArea data stride area oob = ((L : ℚ) / 255, false) := by
  have hw : 0 ≤ area.width := by
    simp only [Rect.width]
    omega
  have hh : 0 ≤ area.height := by
    simp only [Rect.height]
    omega
  have hlen : ((pixelLumas data stride area).length : ℤ) =
      area.width * area.height := by
    rw [pixelLumas_length]
    push_cast
    rw [Int.toNat_of_nonneg hh, Int.toNat_of_nonneg hw]
    ring
  have hmnum : majoritySampleNum area = area.width * area.height / 2 := by
    rw [majoritySampleNum, Int.tdiv_eq_ediv (by positivity) (by omega)]
  have hscan : ∃ b2, scanGo (majoritySampleNum area)
      (pixelLumas data stride area) (fun _ => 0) = (some L, b2) := by
    apply scanGo_majority
    · rw [hmnum]
      omega
    · rw [hmnum]
      have : ((pixelLumas data stride area).length : ℤ) <
          2 * ((pixelLumas data stride area).count L : ℤ) := by
        omega
      omega
    · rw [hmnum]
      have : (0 : ℤ) ≤ area.width * area.height := by positivity
      omega
  obtain ⟨b2, hb2⟩ := hscan
  refine ⟨⟨b2, hb2⟩, ?_, ?_⟩
  · rw [sampleAreaLevel, hb2]
  · rw [sampleArea, sampleAreaLevel, hb2]

/-- C1: refuted on the code as written. On a zero-area rectangle the
histogram fallback is reached with all buckets empty; the loop
`while (bucket++ < 256) { accumulated += brightnessBuckets[bucket]; ... }`
then reads indices 1 through 256 — the read at index 256 is past the
256-entry bucket array (first conjunct: the out-of-bounds flag is set).
Moreover the accumulation starts at level 1, not level 0: on the five-pixel
region with levels [0, 0, 1, 2, 3] (majority threshold 2) the smallest
level whose cumulative count from level 0 exceeds 2 is level 1, but the
fallback returns level 3 (second conjunct). -/
theorem c1_fallback_violates_bounds_and_cumulative :
    (sampleAreaLevel (fun _ => 0) 1 ⟨0, 0, 0, 0⟩ 0).2 = true ∧
    sampleAreaLevel
      (fun i => if i < 2 then 0 else if i = 2 then 65793 else
        if i = 3 then 131586 else 197379) 5 ⟨0, 0, 5, 1⟩ 0 = (3, false) := by
  constructor
  · have h : pixelLumas (fun _ => 0) 1 ⟨0, 0, 0, 0⟩ = [] := by
      rw [pixelLumas,
        show pixelValues (fun _ => 0) 1 ⟨0, 0, 0, 0⟩ = [] from by decide]
      rfl
    rw [sampleAreaLevel, h]
    decide
  · have h : pixelLumas
        (fun i => if i < 2 then 0 else if i = 2 then 65793 else
          if i = 3 then 131586 else 197379) 5 ⟨0, 0, 5, 1⟩ =
        [0, 0, 1, 2, 3] := by
      rw [pixelLumas,
        show pixelValues
          (fun i => if i < 2 then 0 else if i = 2 then 65793 else
            if i = 3 then 131586 else 197379) 5 ⟨0, 0, 5, 1⟩ =
          [0, 0, 65793, 131586, 197379] from by decide]
      simp [lumaLevel_eq]
    rw [sampleAreaLevel, h]
    decide

/-- C2: refuted on the code as written. On a rectangle of zero area (width
0, height 5) `sampleArea` reaches the fallback with an empty histogram and
a majority threshold of 0, reads `brightnessBuckets[256]` out of bounds
(flag true) and returns `257 / 255`, which is not the required luma 0. -/
theorem c2_zero_area_not_zero :
    sampleArea (fun _ => 0) 1 ⟨3, 4, 3, 9⟩ 0 = (257 / 255, true) ∧
      (257 / 255 : ℚ) ≠ 0 := by
  have h : pixelLumas (fun _ => 0) 1 ⟨3, 4, 3, 9⟩ = [] := by
    rw [pixelLumas,
      show pixelValues (fun _ => 0) 1 ⟨3, 4, 3, 9⟩ = [] from by decide]
    rfl
  have h2 : sampleAreaLevel (fun _ => 0) 1 ⟨3, 4, 3, 9⟩ 0 = (257, true) := by
    rw [sampleAreaLevel, h]
    decide
  constructor
  · rw [sampleArea, h2]
    norm_num
  · norm_num

/-- C4: refuted on the code as written. On a 2-by-1 region whose two pixels
discretize to levels 0 and 1 there is no absolute majority, the fallback
exhausts the histogram (skipping bucket 0) and returns `257 / 255 > 1`;
the delivery step then passes this out-of-range value to the listener. -/
theorem c4_luma_exceeds_one :
    1 < (sampleArea (fun i => if i = 0 then 0 else 65793) 2
        ⟨0, 0, 2, 1⟩ 0).1 ∧
    captureDelivery [⟨⟨0, 0, 2, 1⟩, none, 42⟩]
        (sampleBuffer (some fun i => if i = 0 then 0 else 65793) 2 ⟨0, 0⟩
          [⟨⟨0, 0, 2, 1⟩, none, 42⟩] 0) = [(42, 257 / 255)] := by
  have h : pixelLumas (fun i => if i = 0 then 0 else 65793) 2 ⟨0, 0, 2, 1⟩ =
      [0, 1] := by
    rw [pixelLumas,
      show pixelValues (fun i => if i = 0 then 0 else 65793) 2 ⟨0, 0, 2, 1⟩ =
        [0, 65793] from by decide]
    simp [lumaLevel_eq]
  have h2 : sampleAreaLevel (fun i => if i = 0 then 0 else 65793) 2
      ⟨0, 0, 2, 1⟩ 0 = (257, true) := by
    rw [sampleAreaLevel, h]
    decide
  have h3 : sampleArea (fun i => if i = 0 then 0 else 65793) 2
      ⟨0, 0, 2, 1⟩ 0 = (257 / 255, true) := by
    rw [sampleArea, h2]
    norm_num
  constructor
  · rw [h3]
    norm_num
  · have h4 : Rect.sub ⟨0, 0, 2, 1⟩ ⟨0, 0⟩ = ⟨0, 0, 2, 1⟩ := by
      simp [Rect.sub]
    simp only [sampleBuffer, List.map_cons, List.map_nil, h4, h3]
    simp [captureDelivery]

/-- C5: for every well-formed rectangle in which strictly more than half of
the pixels discretize to one luma level `L`, the scan exits early with `L`
(first conjunct) and `sampleArea` returns `L / 255` with no out-of-bounds
read, independently of the value an out-of-bounds read would observe. -/
theorem c5_absolute_majority_early_exit (data : ℤ → ℕ) (stride : ℤ)
    (area : Rect) (L : ℕ) (oob : ℤ) (hl : area.left ≤ area.right)
    (ht : area.top ≤ area.bottom)
    (hmaj : (pixelLumas data stride area).length <
      2 * (pixelLumas data stride area).count L) :
    (∃ b2, scanGo (majoritySampleNum area) (pixelLumas data stride area)
        (fun _ => 0) = (some L, b2)) ∧
      sampleArea data stride area oob = ((L : ℚ) / 255, false) := by
  obtain ⟨h1, _, h3⟩ := sampleArea_majority data stride area L oob hl ht hmaj
  exact ⟨h1, h3⟩

/-- Witness for C5 at a concrete input: a 2-by-1 region of two pixels of
value `0x050505` (luma level 5) returns `5 / 255` by early exit. -/
theorem c5_absolute_majority_early_exit_witness :
    sampleArea (fun _ => 328965) 2 ⟨0, 0, 2, 1⟩ 9 = ((5 : ℚ) / 255, false) := by
  have h : pixelLumas (fun _ => 328965) 2 ⟨0, 0, 2, 1⟩ = [5, 5] := by
    rw [pixelLumas,
      show pixelValues (fun _ => 328965) 2 ⟨0, 0, 2, 1⟩ = [328965, 328965]
        from by decide]
    simp [lumaLevel_eq]
  exact (c5_absolute_majority_early_exit (fun _ => 328965) 2 ⟨0, 0, 2, 1⟩ 5 9
    (by decide) (by decide) (by rw [h]; decide)).2

/-- C6: refuted for L = 0.5. The pixel `0x71A30D` (R = 13, G = 163,
B = 113) has Rec. 709 luma exactly 1/2, but a region uniformly filled with
it returns `round(127.5) / 255 = 128 / 255 ≠ 1/2`: the output of
`sampleArea` is always an integer multiple of 1/255, so luma 0.5 can never
round-trip exactly. -/
theorem c6_half_luma_no_round_trip :
    pixelLuma 7447309 = 1 / 2 ∧
    sampleArea (fun _ => 7447309) 1 ⟨0, 0, 1, 1⟩ 0 = (128 / 255, false) ∧
    (128 / 255 : ℚ) ≠ 1 / 2 := by
  refine ⟨?_, ?_, by norm_num⟩
  · simp only [pixelLuma, getLuma]
    norm_num
  · have h : pixelLumas (fun _ => 7447309) 1 ⟨0, 0, 1, 1⟩ = [128] := by
      rw [pixelLumas,
        show pixelValues (fun _ => 7447309) 1 ⟨0, 0, 1, 1⟩ = [7447309]
          from by decide]
      simp [lumaLevel_eq]
    have h2 : sampleAreaLevel (fun _ => 7447309) 1 ⟨0, 0, 1, 1⟩ 0 =
        (128, false) := by
      rw [sampleAreaLevel, h]
      decide
    rw [sampleArea, h2]
    norm_num

/-- C6 (amended): the exact round-trip holds for L = 0.0 and L = 1.0: a
non-empty well-formed region uniformly filled with a pixel of luma exactly
0 (respectively exactly 1) yields output exactly 0 (respectively exactly
1), with no out-of-bounds read. (For L = 0.5 the round-trip fails, see the
counterexample: the uniform output is `round(L * 255) / 255 = 128 / 255`.) -/
theorem c6_uniform_round_trip_zero_one (area : Rect) (p : ℕ)
    (stride oob : ℤ) (hl : area.left < area.right)
    (ht : area.top < area.bottom) :
    (pixelLuma p = 0 → sampleArea (fun _ => p) stride area oob = (0, false)) ∧
    (pixelLuma p = 1 → sampleArea (fun _ => p) stride area oob = (1, false)) := by
  have hmem : ∀ x ∈ pixelLumas (fun _ => p) stride area, x = lumaLevel p := by
    intro x hx
    simp only [pixelLumas, List.mem_map] at hx
    obtain ⟨a, ha, rfl⟩ := hx
    simp only [pixelValues, List.mem_flatMap, List.mem_map] at ha
    obtain ⟨row, _, col, _, rfl⟩ := ha
    rfl
  have hcount : (pixelLumas (fun _ => p) stride area).count (lumaLevel p) =
      (pixelLumas (fun _ => p) stride area).length :=
    List.count_eq_length.mpr fun b hb => by simp [hmem b hb]
  have hlen1 : 1 ≤ (pixelLumas (fun _ => p) stride area).length := by
    rw [pixelLumas_length]
    have hw : 1 ≤ area.width.toNat := by
      simp only [Rect.width]
      omega
    have hh : 1 ≤ area.height.toNat := by
      simp only [Rect.height]
      omega
    calc 1 = 1 * 1 := rfl
    _ ≤ area.height.toNat * area.width.toNat := Nat.mul_le_mul hh hw
  have hmaj : (pixelLumas (fun _ => p) stride area).length <
      2 * (pixelLumas (fun _ => p) stride area).count (lumaLevel p) := by
    rw [hcount]
    omega
  obtain ⟨_, _, h3⟩ := sampleArea_majority (fun _ => p) stride area
    (lumaLevel p) oob (le_of_lt hl) (le_of_lt ht) hmaj
  constructor
  · intro h0
    have hlev : lumaLevel p = 0 := by
      rw [lumaLevel, h0]
      norm_num
    rw [hlev] at h3
    rw [h3]
    norm_num
  · intro h1
    have hlev : lumaLevel p = 255 := by
      rw [lumaLevel, h1]
      norm_num [round_eq]
      decide
    rw [hlev] at h3
    rw [h3]
    norm_num

/-- Witness for the amended C6 at concrete inputs: the all-zero pixel has
luma 0 and its uniform 1-by-1 region samples to exactly 0, and the pixel
`0xFFFFFF` has luma 1 and its uniform region samples to exactly 1. -/
theorem c6_uniform_round_trip_zero_one_witness :
    sampleArea (fun _ => 0) 1 ⟨0, 0, 1, 1⟩ 0 = (0, false) ∧
    sampleArea (fun _ => 16777215) 1 ⟨0, 0, 1, 1⟩ 0 = (1, false) := by
  constructor
  · exact (c6_uniform_round_trip_zero_one ⟨0, 0, 1, 1⟩ 0 1 0 (by decide)
      (by decide)).1 (by simp only [pixelLuma, getLuma]; norm_num)
  · exact (c6_uniform_round_trip_zero_one ⟨0, 0, 1, 1⟩ 16777215 1 0
      (by decide) (by decide)).2 (by simp only [pixelLuma, getLuma]; norm_num)

/-- Lookup of a different key is unchanged by `emplaceKV`. -/
theorem lookup_emplaceKV_ne (m : List (ℕ × Descriptor)) (k k2 : ℕ)
    (d : Descriptor) (h : k2 ≠ k) :
    (emplaceKV m k d).lookup k2 = m.lookup k2 := by
  rw [emplaceKV]
  split
  · rfl
  · simp [List.lookup, beq_eq_false_iff_ne.mpr h]

/-- Lookup of a different key is unchanged by `eraseKV`. -/
theorem lookup_eraseKV_ne (m : List (ℕ × Descriptor)) (k k2 : ℕ)
    (h : k2 ≠ k) :
    (eraseKV m k).lookup k2 = m.lookup k2 := by
  induction m with
  | nil => rfl
  | cons p rest ih =>
    by_cases hp : p.1 = k
    · have hb : (p.1 != k) = false := by simp [hp]
      have hk2 : (k2 == p.1) = false := by simp [hp, h]
      simp only [eraseKV, List.filter_cons, hb]
      simp only [eraseKV] at ih
      rw [if_neg (by decide), ih]
      simp [List.lookup, hk2]
    · have hb : (p.1 != k) = true := by simp [hp]
      simp only [eraseKV, List.filter_cons, hb]
      simp only [eraseKV] at ih
      cases hk2 : k2 == p.1 <;> simp [List.lookup, hk2, ih]

/-- C3: refuted on the code as written. Registering key 7 with one
descriptor and then registering key 7 again with a different descriptor
leaves the original descriptor in the registry: `unordered_map::emplace`
inserts only if the key is absent, so re-registration is not
last-write-wins. -/
theorem c3_reregistration_keeps_old_descriptor :
    (addListener (addListener ⟨[], false, true⟩ 7 ⟨⟨0, 0, 1, 1⟩, none, 42⟩) 7
        ⟨⟨2, 2, 5, 5⟩, none, 42⟩).descriptors.lookup 7 =
      some ⟨⟨0, 0, 1, 1⟩, none, 42⟩ ∧
    (⟨⟨0, 0, 1, 1⟩, none, 42⟩ : Descriptor) ≠ ⟨⟨2, 2, 5, 5⟩, none, 42⟩ := by
  constructor
  · decide
  · decide

/-- C3 (amended): re-registration with an identity already present in the
registry is a silent no-op: the registry is left entirely unchanged, and
the identity keeps mapping to the previously registered descriptor
(first-write-wins, not last-write-wins). -/
theorem c3_amended_reregistration_noop (s : SharedState) (k : ℕ)
    (d0 d : Descriptor) (h : s.descriptors.lookup k = some d0) :
    (addListener s k d).descriptors = s.descriptors ∧
    (addListener s k d).descriptors.lookup k = some d0 := by
  have hs : (s.descriptors.lookup k).isSome := by
    rw [h]
    rfl
  constructor
  · simp [addListener, emplaceKV, hs]
  · simp [addListener, emplaceKV, hs, h]

/-- Witness for the amended C3 at a concrete input. -/
theorem c3_amended_reregistration_noop_witness :
    (addListener ⟨[(7, ⟨⟨0, 0, 1, 1⟩, none, 42⟩)], false, true⟩ 7
        ⟨⟨2, 2, 5, 5⟩, none, 42⟩).descriptors.lookup 7 =
      some ⟨⟨0, 0, 1, 1⟩, none, 42⟩ :=
  (c3_amended_reregistration_noop ⟨[(7, ⟨⟨0, 0, 1, 1⟩, none, 42⟩)], false, true⟩
    7 ⟨⟨0, 0, 1, 1⟩, none, 42⟩ ⟨⟨2, 2, 5, 5⟩, none, 42⟩ (by decide)).2

/-- C10: each entry point touches only its own slice of the shared state.
`addListener`, `removeListener` and `binderDied` leave both flags unchanged
and do not change the registry entry of any other identity; `sampleNow`
only sets the request flag; and a sampling pass returns the shared state
(in particular the registry) exactly as it found it. -/
theorem c10_frame_effects (s : SharedState) (k : ℕ) (d : Descriptor) :
    (addListener s k d).sampleRequested = s.sampleRequested ∧
    (addListener s k d).running = s.running ∧
    (∀ k2, k2 ≠ k →
      (addListener s k d).descriptors.lookup k2 = s.descriptors.lookup k2) ∧
    (removeListener s k).sampleRequested = s.sampleRequested ∧
    (removeListener s k).running = s.running ∧
    (∀ k2, k2 ≠ k →
      (removeListener s k).descriptors.lookup k2 = s.descriptors.lookup k2) ∧
    (binderDied s k).sampleRequested = s.sampleRequested ∧
    (binderDied s k).running = s.running ∧
    (∀ k2, k2 ≠ k →
      (binderDied s k).descriptors.lookup k2 = s.descriptors.lookup k2) ∧
    (sampleNow s).descriptors = s.descriptors ∧
    (sampleNow s).running = s.running ∧
    (sampleNow s).sampleRequested = true ∧
    (∀ sampledArea layers lockResult stride oob,
      (captureSamplePass s sampledArea layers lockResult stride oob).1 = s) := by
  refine ⟨rfl, rfl, ?_, rfl, rfl, ?_, rfl, rfl, ?_, rfl, rfl, rfl, ?_⟩
  · intro k2 h
    exact lookup_emplaceKV_ne s.descriptors k k2 d h
  · intro k2 h
    exact lookup_eraseKV_ne s.descriptors k k2 h
  · intro k2 h
    exact lookup_eraseKV_ne s.descriptors k k2 h
  · intro sampledArea layers lockResult stride oob
    rw [captureSamplePass]
    split
    · rfl
    · rfl

/-- Witness for C10 at a concrete input, discharging the distinct-key
hypotheses and instantiating the pass. -/
theorem c10_frame_effects_witness :
    (addListener ⟨[(3, ⟨⟨0, 0, 1, 1⟩, none, 9⟩)], true, true⟩ 7
        ⟨⟨2, 2, 5, 5⟩, none, 42⟩).descriptors.lookup 3 =
      ([(3, (⟨⟨0, 0, 1, 1⟩, none, 9⟩ : Descriptor))].lookup 3) ∧
    (captureSamplePass ⟨[(3, ⟨⟨0, 0, 1, 1⟩, none, 9⟩)], true, true⟩
        ⟨0, 0, 1, 1⟩ [] none 1 0).1 =
      ⟨[(3, ⟨⟨0, 0, 1, 1⟩, none, 9⟩)], true, true⟩ :=
  ⟨(c10_frame_effects ⟨[(3, ⟨⟨0, 0, 1, 1⟩, none, 9⟩)], true, true⟩ 7
      ⟨⟨2, 2, 5, 5⟩, none, 42⟩).2.2.1 3 (by decide),
    (c10_frame_effects ⟨[(3, ⟨⟨0, 0, 1, 1⟩, none, 9⟩)], true, true⟩ 7
      ⟨⟨2, 2, 5, 5⟩, none, 42⟩).2.2.2.2.2.2.2.2.2.2.2.2 ⟨0, 0, 1, 1⟩ [] none 1 0⟩

/-- C7: callbacks are delivered iff the luma count matches the active
descriptor count. On a match, the delivered events pair each active
descriptor's listener with the luma at its position; on any mismatch,
nothing is delivered. A buffer lock failure yields an empty luma vector
from `sampleBuffer`, so with a non-empty active list nothing is delivered;
on lock success the luma count always matches and delivery happens. The
pass has no result channel other than the callbacks, so no failure is
reported to any caller. -/
theorem c7_delivery_iff_counts_match (lockResult : Option (ℤ → ℕ))
    (stride : ℤ) (leftTop : Point) (active : List Descriptor) (oob : ℤ) :
    ((sampleBuffer lockResult stride leftTop active oob).length =
        active.length →
      captureDelivery active (sampleBuffer lockResult stride leftTop active oob) =
        (active.map Descriptor.listener).zip
          (sampleBuffer lockResult stride leftTop active oob)) ∧
    ((sampleBuffer lockResult stride leftTop active oob).length ≠
        active.length →
      captureDelivery active
        (sampleBuffer lockResult stride leftTop active oob) = []) ∧
    (lockResult = none →
      sampleBuffer lockResult stride leftTop active oob = []) ∧
    (lockResult = none → active ≠ [] →
      captureDelivery active
        (sampleBuffer lockResult stride leftTop active oob) = []) ∧
    (∀ data, lockResult = some data →
      (sampleBuffer lockResult stride leftTop active oob).length =
          active.length ∧
        captureDelivery active
            (sampleBuffer lockResult stride leftTop active oob) =
          (active.map Descriptor.listener).zip
            (sampleBuffer lockResult stride leftTop active oob)) := by
  refine ⟨?_, ?_, ?_, ?_, ?_⟩
  · intro h
    rw [captureDelivery, if_pos h]
  · intro h
    rw [captureDelivery, if_neg h]
  · intro h
    subst h
    rfl
  · intro h hne
    subst h
    rw [captureDelivery, if_neg]
    simp only [sampleBuffer, List.length_nil]
    intro h0
    exact hne (List.length_eq_zero.mp h0.symm)
  · intro data h
    subst h
    have hlen : (sampleBuffer (some data) stride leftTop active oob).length =
        active.length := by
      simp [sampleBuffer]
    exact ⟨hlen, by rw [captureDelivery, if_pos hlen]⟩

/-- Witness for C7 at concrete inputs: with a failed lock and one active
descriptor nothing is delivered, and with a successful lock over a uniform
black buffer the single listener is invoked with its luma. -/
theorem c7_delivery_iff_counts_match_witness :
    captureDelivery [⟨⟨0, 0, 1, 1⟩, none, 42⟩]
        (sampleBuffer none 1 ⟨0, 0⟩ [⟨⟨0, 0, 1, 1⟩, none, 42⟩] 0) = [] ∧
    captureDelivery [⟨⟨0, 0, 1, 1⟩, none, 42⟩]
        (sampleBuffer (some fun _ => 0) 1 ⟨0, 0⟩ [⟨⟨0, 0, 1, 1⟩, none, 42⟩] 0) =
      [(42, (sampleArea (fun _ => 0) 1 (Rect.sub ⟨0, 0, 1, 1⟩ ⟨0, 0⟩) 0).1)] :=
  ⟨(c7_delivery_iff_counts_match none 1 ⟨0, 0⟩ [⟨⟨0, 0, 1, 1⟩, none, 42⟩]
      0).2.2.2.1 rfl (by decide),
    ((c7_delivery_iff_counts_match (some fun _ => 0) 1 ⟨0, 0⟩
      [⟨⟨0, 0, 1, 1⟩, none, 42⟩] 0).2.2.2.2 (fun _ => 0) rfl).2⟩

/-- Scanning any run of listener callbacks touches no shared state. -/
theorem sharedFree_replicate_callback (held : Bool) :
    ∀ n : ℕ, sharedFree held (List.replicate n Ev.callback) = true := by
  intro n
  induction n with
  | zero => rfl
  | succ n ih =>
    rw [List.replicate_succ, sharedFree]
    exact ih

/-- C9: in a pass that reaches the capture step (non-empty registry), the
worker's action trace is exactly two shared-state reads under the mutex,
then `unlock`, the capture call, `lock`, then only listener callbacks: the
mutex is released immediately before the capture call and re-acquired
immediately after, the mutex is not held while the capture call runs (so a
reentrant `sampleNow`, which only needs this mutex, can complete), and no
shared state is read or written while the mutex is released. -/
theorem c9_unlock_around_capture (emptyRegistry : Bool) (numActive : ℕ) :
    sharedFree true (captureSampleTrace emptyRegistry numActive) = true ∧
    (emptyRegistry = false →
      captureSampleTrace emptyRegistry numActive =
        [Ev.readShared, Ev.readShared] ++
          [Ev.unlockM, Ev.captureCall, Ev.lockM] ++
          List.replicate numActive Ev.callback ∧
      heldBefore true [Ev.readShared, Ev.readShared, Ev.unlockM] = false ∧
      ∀ e ∈ List.replicate numActive Ev.callback,
        e ≠ Ev.unlockM ∧ e ≠ Ev.captureCall ∧ e ≠ Ev.readShared ∧
          e ≠ Ev.writeShared) := by
  cases emptyRegistry with
  | true =>
    refine ⟨rfl, ?_⟩
    intro h
    cases h
  | false =>
    refine ⟨?_, fun _ => ⟨rfl, by decide, ?_⟩⟩
    · show sharedFree true ([Ev.readShared, Ev.readShared, Ev.unlockM,
        Ev.captureCall, Ev.lockM] ++ List.replicate numActive Ev.callback) = true
      simp only [List.cons_append, List.nil_append, sharedFree, Bool.true_and]
      exact sharedFree_replicate_callback true numActive
    · intro e he
      rw [List.eq_of_mem_replicate he]
      exact ⟨by decide, by decide, by decide, by decide⟩

/-- Witness for C9 at a concrete input (a pass with two active
descriptors). -/
theorem c9_unlock_around_capture_witness :
    sharedFree true (captureSampleTrace false 2) = true ∧
    captureSampleTrace false 2 =
      [Ev.readShared, Ev.readShared] ++
        [Ev.unlockM, Ev.captureCall, Ev.lockM] ++
        List.replicate 2 Ev.callback :=
  ⟨(c9_unlock_around_capture false 2).1,
    ((c9_unlock_around_capture false 2).2 rfl).1⟩

/-- Once the stop flag is set, the rest of the traversal changes nothing:
every subsequent layer is suppressed and no listener is inserted. -/
theorem foldl_filterStep_stopped (A : Rect) (ds : List Descriptor) :
    ∀ (layers : List Layer) (st : FilterState), st.stopLayerFound = true →
      layers.foldl (filterStep A ds) st = st := by
  intro layers
  induction layers with
  | nil =>
    intro st _
    rfl
  | cons l rest ih =>
    intro st h
    rw [List.foldl_cons, show filterStep A ds st l = st from by
      rw [filterStep, if_pos h]]
    exact ih st h

/-- Visiting a layer that is the stop-boundary layer of some descriptor
(any descriptor) with the flag still clear sets the flag and suppresses
that layer, changing nothing else. -/
theorem filterStep_stop_hit (A : Rect) (ds : List Descriptor)
    (st : FilterState) (l : Layer) (hns : st.stopLayerFound = false)
    (hstop : ∃ d2 ∈ ds, d2.stopLayerId = some l.lid) :
    filterStep A ds st l = { st with stopLayerFound := true } := by
  have hany : (ds.any fun d2 => decide (d2.stopLayerId = some l.lid)) = true := by
    rw [List.any_eq_true]
    obtain ⟨d2, hd2, he⟩ := hstop
    exact ⟨d2, hd2, by simp [he]⟩
  rw [filterStep, if_neg (by simp [hns]), if_pos hany]

/-- A single filter step never inserts the listener of a descriptor whose
area the visited layer does not intersect (given that no other descriptor
with the same listener has a different area). -/
theorem filterStep_not_inserted (A : Rect) (ds : List Descriptor)
    (d : Descriptor)
    (huniq : ∀ d2 ∈ ds, d2.listener = d.listener → d2.area = d.area)
    (st : FilterState) (l : Layer)
    (hni : ¬ Rect.intersects l.tbounds d.area)
    (h : d.listener ∉ st.activeListeners) :
    d.listener ∉ (filterStep A ds st l).activeListeners := by
  rw [filterStep]
  by_cases h1 : st.stopLayerFound = true
  · rw [if_pos h1]
    exact h
  · rw [if_neg h1]
    by_cases h2 : (ds.any fun d2 => decide (d2.stopLayerId = some l.lid)) = true
    · rw [if_pos h2]
      exact h
    · rw [if_neg h2]
      by_cases h3 : ¬ Rect.intersects l.tbounds A
      · rw [if_pos h3]
        exact h
      · rw [if_neg h3]
        dsimp only
        by_cases h4 :
            (ds.filter fun d2 => decide (Rect.intersects l.tbounds d2.area)) = []
        · rw [if_pos h4]
          exact h
        · rw [if_neg h4]
          intro hmem
          simp only [List.mem_append] at hmem
          rcases hmem with hmem | hmem
          · exact h hmem
          · simp only [List.mem_map] at hmem
            obtain ⟨d2, hd2, hld⟩ := hmem
            rw [List.mem_filter] at hd2
            have harea := huniq d2 hd2.1 hld
            have hint : Rect.intersects l.tbounds d2.area :=
              of_decide_eq_true hd2.2
            rw [harea] at hint
            exact hni hint

/-- Over a whole run of layers none of which intersects the descriptor's
area, the descriptor's listener is never inserted. -/
theorem foldl_filterStep_not_inserted (A : Rect) (ds : List Descriptor)
    (d : Descriptor)
    (huniq : ∀ d2 ∈ ds, d2.listener = d.listener → d2.area = d.area) :
    ∀ (layers : List Layer) (st : FilterState),
      (∀ l ∈ layers, ¬ Rect.intersects l.tbounds d.area) →
      d.listener ∉ st.activeListeners →
      d.listener ∉ (layers.foldl (filterStep A ds) st).activeListeners := by
  intro layers
  induction layers with
  | nil =>
    intro st _ h
    exact h
  | cons l rest ih =>
    intro st hall h
    rw [List.foldl_cons]
    exact ih (filterStep A ds st l)
      (fun x hx => hall x (List.mem_cons_of_mem l hx))
      (filterStep_not_inserted A ds d huniq st l (hall l (List.mem_cons_self l rest)) h)

/-- C8: once a layer that is some descriptor's stop-boundary layer is
visited, that layer and every later layer is suppressed (the passed-through
list and the listeners set stop growing), regardless of which descriptor
owns the boundary; consequently a descriptor none of whose intersecting
content precedes its stop-boundary layer in traversal order is never
marked active and receives no callback in that pass. -/
theorem c8_stop_layer_suppresses_rest (A : Rect) (ds : List Descriptor)
    (pre post : List Layer) (l0 : Layer) (d : Descriptor)
    (hstop : ∃ d2 ∈ ds, d2.stopLayerId = some l0.lid)
    (hpre : ∀ l ∈ pre, ¬ Rect.intersects l.tbounds d.area)
    (huniq : ∀ d2 ∈ ds, d2.listener = d.listener → d2.area = d.area) :
    (traverseFilter A ds (pre ++ l0 :: post)).passed =
      (pre.foldl (filterStep A ds) initState).passed ∧
    (traverseFilter A ds (pre ++ l0 :: post)).activeListeners =
      (pre.foldl (filterStep A ds) initState).activeListeners ∧
    d.listener ∉ (traverseFilter A ds (pre ++ l0 :: post)).activeListeners ∧
    d ∉ activeDescriptors ds (traverseFilter A ds (pre ++ l0 :: post)) ∧
    ∀ (lumas : List ℚ) (ev : ℕ × ℚ),
      ev ∈ captureDelivery
        (activeDescriptors ds (traverseFilter A ds (pre ++ l0 :: post)))
        lumas →
      ev.1 ≠ d.listener := by
  set mid := pre.foldl (filterStep A ds) initState with hmid
  have hsplit : traverseFilter A ds (pre ++ l0 :: post) =
      post.foldl (filterStep A ds) (filterStep A ds mid l0) := by
    rw [traverseFilter, List.foldl_append, List.foldl_cons]
  have hfinal : (traverseFilter A ds (pre ++ l0 :: post)).passed = mid.passed ∧
      (traverseFilter A ds (pre ++ l0 :: post)).activeListeners =
        mid.activeListeners := by
    cases hflag : mid.stopLayerFound with
    | true =>
      have h1 : filterStep A ds mid l0 = mid := by
        rw [filterStep, if_pos hflag]
      rw [hsplit, h1, foldl_filterStep_stopped A ds post mid hflag]
      exact ⟨rfl, rfl⟩
    | false =>
      have h1 := filterStep_stop_hit A ds mid l0 hflag hstop
      rw [hsplit, h1, foldl_filterStep_stopped A ds post _ rfl]
      exact ⟨rfl, rfl⟩
  have hmem : d.listener ∉ mid.activeListeners := by
    rw [hmid]
    exact foldl_filterStep_not_inserted A ds d huniq pre initState hpre
      (by simp [initState])
  have hnotin :
      d.listener ∉ (traverseFilter A ds (pre ++ l0 :: post)).activeListeners := by
    rw [hfinal.2]
    exact hmem
  have hnact :
      d ∉ activeDescriptors ds (traverseFilter A ds (pre ++ l0 :: post)) := by
    intro hmem2
    rw [activeDescriptors, List.mem_filter] at hmem2
    exact hnotin (of_decide_eq_true hmem2.2)
  refine ⟨hfinal.1, hfinal.2, hnotin, hnact, ?_⟩
  intro lumas ev hev
  rw [captureDelivery] at hev
  split at hev
  · obtain ⟨a, v⟩ := ev
    have h5 := (List.of_mem_zip hev).1
    simp only [List.mem_map] at h5
    obtain ⟨d2, hd2, hld⟩ := h5
    rw [activeDescriptors, List.mem_filter] at hd2
    intro heq
    have heq2 : a = d.listener := heq
    have h6 := of_decide_eq_true hd2.2
    rw [hld, heq2] at h6
    exact hnotin h6
  · exact absurd hev (List.not_mem_nil ev)

/-- Witness for C8 at a concrete input: one descriptor with stop-boundary
layer 1, traversal [layer 1, layer 2]; although layer 2 covers the
descriptor's area, it comes after the stop layer, so the descriptor is not
active. -/
theorem c8_stop_layer_suppresses_rest_witness :
    (⟨⟨0, 0, 10, 10⟩, some 1, 42⟩ : Descriptor) ∉
      activeDescriptors [⟨⟨0, 0, 10, 10⟩, some 1, 42⟩]
        (traverseFilter ⟨0, 0, 10, 10⟩ [⟨⟨0, 0, 10, 10⟩, some 1, 42⟩]
          ([] ++ ⟨1, ⟨0, 0, 10, 10⟩⟩ :: [⟨2, ⟨0, 0, 10, 10⟩⟩])) :=
  (c8_stop_layer_suppresses_rest ⟨0, 0, 10, 10⟩
    [⟨⟨0, 0, 10, 10⟩, some 1, 42⟩] [] [⟨2, ⟨0, 0, 10, 10⟩⟩]
    ⟨1, ⟨0, 0, 10, 10⟩⟩ ⟨⟨0, 0, 10, 10⟩, some 1, 42⟩
    ⟨⟨⟨0, 0, 10, 10⟩, some 1, 42⟩, by decide, rfl⟩ (by simp)
    (by decide)).2.2.2.1

end RegionSampling
